import Mathlib

/-!
A shallow embedding of the allocation-tracking engine in src/hulog.cpp of the
heapusage repository, together with proofs about its behaviour.

Modelling conventions:
* machine counters (C unsigned long long) are Nat reduced modulo 2 ^ 64;
* platform services (dladdr, basename, __cxa_demangle, fopen, getpid) are an
  explicit environment of pure oracles (structure Env below);
* std::map is an association list with at most one entry per key; no claim
  proved here depends on map iteration order;
* captured call stacks (the result of backtrace, at most MAX_CALL_STACK = 20
  frames) are the list of frame addresses carried by each event, with
  callstack_depth equal to the list length.
-/

abbrev Addr := Nat

/-- Lookup in an association-list map; models std::map::find. -/
def mlookup {α β : Type} [DecidableEq α] (k : α) : List (α × β) → Option β
  | [] => none
  | e :: t => if e.1 = k then some e.2 else mlookup k t

/-- Remove the entry with key k; models std::map::erase. -/
def merase {α β : Type} [DecidableEq α] (k : α) (m : List (α × β)) : List (α × β) :=
  m.filter (fun e => decide (e.1 ≠ k))

/-- Insert or overwrite the entry for key k; models assignment through
std::map operator[].  Entry order is not meaningful in this model. -/
def mset {α β : Type} [DecidableEq α] (k : α) (v : β) (m : List (α × β)) : List (α × β) :=
  (k, v) :: merase k m

theorem mlookup_merase_ne {α β : Type} [DecidableEq α] (k k' : α) (m : List (α × β))
    (h : k' ≠ k) : mlookup k' (merase k m) = mlookup k' m := by
  induction m with
  | nil => simp [merase, mlookup]
  | cons e t ih =>
    by_cases he : e.1 = k
    · have h1 : merase k (e :: t) = merase k t := by simp [merase, he]
      have h2 : ¬ e.1 = k' := by rw [he]; exact fun hk => h hk.symm
      rw [h1, ih]
      simp [mlookup, h2]
    · have h1 : merase k (e :: t) = e :: merase k t := by simp [merase, he]
      rw [h1]
      by_cases he' : e.1 = k'
      · simp [mlookup, he']
      · simp [mlookup, he', ih]

theorem mlookup_mset_self {α β : Type} [DecidableEq α] (k : α) (v : β) (m : List (α × β)) :
    mlookup k (mset k v m) = some v := by
  simp [mset, mlookup]

theorem mlookup_mset_ne {α β : Type} [DecidableEq α] (k k' : α) (v : β) (m : List (α × β))
    (h : k' ≠ k) : mlookup k' (mset k v m) = mlookup k' m := by
  have : k ≠ k' := fun hk => h hk.symm
  simp [mset, mlookup, this]
  exact mlookup_merase_ne k k' m h

theorem mlookup_eq_none_iff {α β : Type} [DecidableEq α] (k : α) (m : List (α × β)) :
    mlookup k m = none ↔ ∀ e ∈ m, e.1 ≠ k := by
  induction m with
  | nil => simp [mlookup]
  | cons e t ih =>
    by_cases he : e.1 = k
    · simp [mlookup, he]
    · simp [mlookup, he, ih]

theorem merase_eq_self_of_none {α β : Type} [DecidableEq α] (k : α) (m : List (α × β))
    (h : mlookup k m = none) : merase k m = m := by
  induction m with
  | nil => rfl
  | cons e t ih =>
    by_cases he : e.1 = k
    · simp [mlookup, he] at h
    · simp only [mlookup, if_neg he] at h
      have h1 : merase k (e :: t) = e :: merase k t := by simp [merase, he]
      rw [h1, ih h]

theorem mset_of_none {α β : Type} [DecidableEq α] (k : α) (v : β) (m : List (α × β))
    (h : mlookup k m = none) : mset k v m = (k, v) :: m := by
  simp [mset, merase_eq_self_of_none k m h]

theorem keys_merase_not_mem {α β : Type} [DecidableEq α] (k : α) (m : List (α × β)) :
    k ∉ (merase k m).map Prod.fst := by
  intro hmem
  rw [List.mem_map] at hmem
  obtain ⟨e, he, hk⟩ := hmem
  have h1 : e.1 ≠ k := by
    have h2 := List.of_mem_filter he
    simpa using h2
  exact h1 hk

theorem merase_sublist {α β : Type} [DecidableEq α] (k : α) (m : List (α × β)) :
    (merase k m).Sublist m :=
  List.filter_sublist m

theorem nodup_keys_merase {α β : Type} [DecidableEq α] (k : α) (m : List (α × β))
    (h : (m.map Prod.fst).Nodup) : ((merase k m).map Prod.fst).Nodup :=
  List.Nodup.sublist (List.Sublist.map Prod.fst (merase_sublist k m)) h

theorem nodup_keys_mset {α β : Type} [DecidableEq α] (k : α) (v : β) (m : List (α × β))
    (h : (m.map Prod.fst).Nodup) : ((mset k v m).map Prod.fst).Nodup := by
  have h1 : (mset k v m).map Prod.fst = k :: (merase k m).map Prod.fst := by simp [mset]
  rw [h1, List.nodup_cons]
  exact ⟨keys_merase_not_mem k m, nodup_keys_merase k m h⟩

theorem mlookup_eq_none_of_not_mem_keys {α β : Type} [DecidableEq α] (k : α)
    (m : List (α × β)) (h : k ∉ m.map Prod.fst) : mlookup k m = none := by
  rw [mlookup_eq_none_iff]
  intro e he hk
  exact h (by exact List.mem_map.mpr ⟨e, he, hk⟩)

/-- 64-bit unsigned addition (C unsigned long long arithmetic). -/
def add64 (a b : Nat) : Nat := (a + b) % 2 ^ 64

/-- 64-bit unsigned subtraction (C unsigned long long arithmetic). -/
def sub64 (a b : Nat) : Nat := (a + (2 ^ 64 - b % 2 ^ 64)) % 2 ^ 64

theorem add64_eq {a b : Nat} (h : a + b < 2 ^ 64) : add64 a b = a + b :=
  Nat.mod_eq_of_lt h

theorem sub64_eq {a b : Nat} (hb : b ≤ a) (ha : a < 2 ^ 64) : sub64 a b = a - b := by
  unfold sub64
  have hblt : b < 2 ^ 64 := lt_of_le_of_lt hb ha
  rw [Nat.mod_eq_of_lt hblt]
  have h1 : a + (2 ^ 64 - b) = 2 ^ 64 + (a - b) := by omega
  rw [h1, Nat.add_mod_left]
  exact Nat.mod_eq_of_lt (by omega)

/-- hu_allocinfo_t: the per-allocation record.  callstack_depth of the C
struct is the length of the callstack list; count is 1 on creation and only
grows during report-time aggregation. -/
structure hu_allocinfo_t where
  ptr : Addr
  size : Nat
  callstack : List Addr
  count : Nat
deriving DecidableEq

/-- The configuration read once by log_init from the environment variables
HU_FILE, HU_FREE, HU_NOSYMS and HU_MINLEAK. -/
structure Config where
  hu_log_file : Option String
  hu_log_free : Bool
  hu_log_nosyms : Bool
  hu_log_minleak : Int
deriving DecidableEq

/-- Pure oracles for the platform services used by hulog.cpp.
dladdr_fname a models basename(dli_fname) from a successful dladdr(a) (none
when dladdr fails or dli_fname is null); dladdr_sym a models the pair
(dli_sname, dli_saddr) (none when dladdr fails or dli_sname is null);
demangle s models __cxa_demangle with status 0 (none on failure); fopen_ok
tells whether opening the configured output file for append succeeds;
pid models getpid(). -/
structure Env where
  dladdr_fname : Addr → Option String
  dladdr_sym : Addr → Option (String × Nat)
  demangle : String → Option String
  fopen_ok : Bool
  pid : Nat

/-- The file-global mutable state of hulog.cpp. -/
structure LogState where
  allocations : List (Addr × hu_allocinfo_t)
  symbol_cache : List (Addr × String)
  objfile_cache : List (Addr × String)
  callcount : Nat
  logging_enabled : Bool
  allocinfo_total_frees : Nat
  allocinfo_total_allocs : Nat
  allocinfo_total_alloc_bytes : Nat
  allocinfo_current_alloc_bytes : Nat
  allocinfo_peak_alloc_bytes : Nat
  output : List String
deriving DecidableEq

/-- The state right after log_init: empty table and caches, all counters 0,
logging disabled. -/
def initState : LogState :=
  { allocations := [], symbol_cache := [], objfile_cache := [], callcount := 0,
    logging_enabled := false, allocinfo_total_frees := 0, allocinfo_total_allocs := 0,
    allocinfo_total_alloc_bytes := 0, allocinfo_current_alloc_bytes := 0,
    allocinfo_peak_alloc_bytes := 0, output := [] }

/-- log_enable. -/
def log_enable (flag : Bool) (s : LogState) : LogState :=
  { s with logging_enabled := flag }

/-- fopen(hu_log_file, "a"): succeeds when a file is configured and the
environment can open it.  fopen of a null path (no HU_FILE) returns NULL on
the supported platforms. -/
def fopen_append (cfg : Config) (env : Env) : Bool :=
  cfg.hu_log_file.isSome && env.fopen_ok

/-- The object-file walk of log_is_valid_callstack (lines 154-178): visit the
given addresses in order, per address first consulting objfile_cache, on a
miss calling dladdr (recording the address in the returned query list) and
caching the resolved basename; stop at the first non-empty object-file name.
Returns the name found ("" if none), the updated cache and the list of
addresses passed to dladdr. -/
def findObjfile (env : Env) : List Addr → List (Addr × String) →
    String × List (Addr × String) × List Addr
  | [], c => ("", c, [])
  | a :: rest, c =>
    match mlookup a c with
    | some s =>
      if s = "" then findObjfile env rest c else (s, c, [])
    | none =>
      match env.dladdr_fname a with
      | some s =>
        let c' := mset a s c
        if s = "" then
          let r := findObjfile env rest c'
          (r.1, r.2.1, a :: r.2.2)
        else (s, c', [a])
      | none =>
        let r := findObjfile env rest c
        (r.1, r.2.1, a :: r.2.2)

/-- log_is_valid_callstack: walk the captured stack from index
callstack_depth - 1 down to index 1 (the innermost frame, index 0, is never
examined), take the first non-empty object-file name, and reject exactly a
deallocation whose first resolved object file is libobjc.A.dylib.  Returns
the verdict, the updated objfile_cache and the addresses queried via dladdr. -/
def log_is_valid_callstack (env : Env) (callstack : List Addr) (is_alloc : Bool)
    (cache : List (Addr × String)) : Bool × List (Addr × String) × List Addr :=
  let r := findObjfile env ((callstack.drop 1).reverse) cache
  (if r.1 ≠ "" ∧ is_alloc = false ∧ r.1 = "libobjc.A.dylib" then false else true,
   r.2.1, r.2.2)

/-- addr_to_symbol: cached address-to-symbol resolution.  On a cache hit the
cached string is returned and no platform lookup happens (third component
false).  On a miss, dladdr is consulted; a mangled name (first byte a single
underscore, modelling dli_sname[0] == the underscore character) is demangled
when possible; a non-empty name gets the byte offset addr - dli_saddr
appended; the result (possibly "") is stored in the cache. -/
def addr_to_symbol (env : Env) (addr : Addr) (cache : List (Addr × String)) :
    String × List (Addr × String) × Bool :=
  match mlookup addr cache with
  | some s => (s, cache, false)
  | none =>
    let symbol :=
      match env.dladdr_sym addr with
      | none => ""
      | some sn =>
        let dem := if sn.1.data.head? = some (Char.ofNat 95) then
            (env.demangle sn.1).getD "" else ""
        let s1 := if dem = "" then sn.1 else dem
        if s1 = "" then s1
        else s1 ++ ":" ++ toString ((addr : Int) - (sn.2 : Int))
    (symbol, mset addr symbol cache, true)

/-- The events delivered by the interception layer: EVENT_MALLOC with its
pointer and size, EVENT_FREE with its pointer.  Each event carries the call
stack that backtrace would capture at that moment (at most 20 frames). -/
inductive HEvent where
  | malloc (ptr : Addr) (size : Nat) (stack : List Addr)
  | free (ptr : Addr) (stack : List Addr)
deriving DecidableEq

/-- Lines 190-198 of log_event: under callcount_lock, increment callcount if
it is 0, otherwise flag the call as recursive.  Returns the updated state and
the in_recursion flag. -/
def log_event_enter (s : LogState) : LogState × Bool :=
  if s.callcount = 0 then ({ s with callcount := s.callcount + 1 }, false)
  else (s, true)

/-- Lines 200-246 of log_event: the real bookkeeping, performed only by a
non-recursive call. -/
def log_event_work (cfg : Config) (env : Env) (ev : HEvent) (s : LogState) : LogState :=
  match ev with
  | .malloc ptr size stack =>
    let allocinfo : hu_allocinfo_t :=
      { ptr := ptr, size := size, callstack := stack, count := 1 }
    let s1 :=
      { s with allocations := mset ptr allocinfo s.allocations,
               allocinfo_total_allocs := add64 s.allocinfo_total_allocs 1,
               allocinfo_total_alloc_bytes := add64 s.allocinfo_total_alloc_bytes size,
               allocinfo_current_alloc_bytes := add64 s.allocinfo_current_alloc_bytes size }
    if s1.allocinfo_peak_alloc_bytes < s1.allocinfo_current_alloc_bytes then
      { s1 with allocinfo_peak_alloc_bytes := s1.allocinfo_current_alloc_bytes }
    else s1
  | .free ptr stack =>
    let s1 :=
      match mlookup ptr s.allocations with
      | some info =>
        { s with allocinfo_current_alloc_bytes :=
                   sub64 s.allocinfo_current_alloc_bytes info.size,
                 allocations := merase ptr s.allocations }
      | none =>
        if cfg.hu_log_free then
          let r := log_is_valid_callstack env stack false s.objfile_cache
          let s' := { s with objfile_cache := r.2.1 }
          if r.1 then
            if fopen_append cfg env then
              { s' with output := s'.output ++ [" Invalid deallocation at:", ""] }
            else s'
          else s'
        else s
    { s1 with allocinfo_total_frees := add64 s1.allocinfo_total_frees 1 }

/-- log_event: when logging is enabled, run the reentrancy gate; a call that
found callcount at 0 performs the bookkeeping and then decrements callcount;
a call flagged as recursive does nothing at all. -/
def log_event (cfg : Config) (env : Env) (ev : HEvent) (s : LogState) : LogState :=
  if s.logging_enabled then
    let r := log_event_enter s
    if r.2 then r.1
    else
      let s2 := log_event_work cfg env ev r.1
      { s2 with callcount := s2.callcount - 1 }
  else s

/-- Process a sequence of events through log_event. -/
def processEvents (cfg : Config) (env : Env) (evs : List HEvent) (s : LogState) : LogState :=
  evs.foldl (fun st e => log_event cfg env e st) s

/-- Per-frame loop of log_print_callstack (lines 126-144): walk the frames in
increasing index order, resolve the symbol of every visited frame, and push
into the trace exactly those frames whose index i satisfies
callstack_depth - 5 <= i (int arithmetic).  The input list carries each frame
as an (index, address) pair; the symbol cache is threaded through. -/
def trace_loop (env : Env) (d : Nat) : List (Nat × Addr) → List (Addr × String) →
    List (Addr × String) × List (Addr × String)
  | [], sc => ([], sc)
  | f :: rest, sc =>
    let r := addr_to_symbol env f.2 sc
    let t := trace_loop env d rest r.2.1
    (if (d : Int) - 5 ≤ (f.1 : Int) then (f.2, r.1) :: t.1 else t.1, t.2)

/-- log_print_callstack (lines 122-148): with a positive captured depth the
loop starts at index 1 and builds the trace window; with depth 0 no trace is
produced (the function prints an inline diagnostic instead, modelled as
none). -/
def log_print_callstack (env : Env) (stack : List Addr) (sc : List (Addr × String)) :
    Option (List (Addr × String)) × List (Addr × String) :=
  if 0 < stack.length then
    let t := trace_loop env stack.length (stack.enum.drop 1) sc
    (some t.1, t.2)
  else (none, sc)

/-- One step of the grouping loop of log_summary (lines 273-288): merge one
table record into the by-callstack map, bumping count by 1 and size by the
record's size when the full callstack sequence is already a key. -/
def groupInsert (r : hu_allocinfo_t) (m : List (List Addr × hu_allocinfo_t)) :
    List (List Addr × hu_allocinfo_t) :=
  match mlookup r.callstack m with
  | some v => mset r.callstack { v with count := v.count + 1, size := v.size + r.size } m
  | none => mset r.callstack r m

/-- The grouping pass of log_summary over the whole allocation table. -/
def groupByCallstack (tbl : List (Addr × hu_allocinfo_t)) : List (List Addr × hu_allocinfo_t) :=
  tbl.foldl (fun m e => groupInsert e.2 m) []

/-- leak_total_bytes (line 286): unsigned long long sum of the sizes of all
live allocations, accumulated without any threshold filtering. -/
def leak_total_bytes (tbl : List (Addr × hu_allocinfo_t)) : Nat :=
  tbl.foldl (fun acc e => add64 acc e.2.size) 0

/-- leak_total_blocks (line 287): the number of live allocations. -/
def leak_total_blocks (tbl : List (Addr × hu_allocinfo_t)) : Nat :=
  tbl.foldl (fun acc _ => add64 acc 1) 0

/-- The size-ordered view of the grouped records (lines 291-295, the
std::multiset with size_compare): ascending by size; the relative order of
equal sizes is unspecified and no claim below depends on it. -/
def allocations_by_size (g : List (List Addr × hu_allocinfo_t)) : List hu_allocinfo_t :=
  List.insertionSort (fun a b => a.size ≤ b.size) (g.map (fun e => e.2))

/-- One itemized leak of the emitted report: bytes, blocks and the trace of
(address, resolved symbol) frames; trace is none when the captured depth was
0. -/
structure LeakEntry where
  bytes : Nat
  blocks : Nat
  trace : Option (List (Addr × String))
deriving DecidableEq

/-- The structured document built by log_summary. -/
structure Report where
  pid : Nat
  runtime_allocs : Nat
  runtime_frees : Nat
  runtime_bytes : Nat
  lost_bytes : Nat
  lost_blocks : Nat
  leaks : List LeakEntry
deriving DecidableEq

/-- The leak-emission loop of log_summary (lines 315-325): walk the grouped
records in descending size order, stopping at the first record below
hu_log_minleak; re-validate each remaining record's callstack as an
allocation-side check; build the entry and its trace for the valid ones.
Both caches are threaded through. -/
def emit_leaks (cfg : Config) (env : Env) :
    List hu_allocinfo_t → List (Addr × String) → List (Addr × String) →
    List LeakEntry × List (Addr × String) × List (Addr × String)
  | [], oc, sc => ([], oc, sc)
  | r :: rest, oc, sc =>
    if cfg.hu_log_minleak ≤ (r.size : Int) then
      let v := log_is_valid_callstack env r.callstack true oc
      if v.1 then
        let p := log_print_callstack env r.callstack sc
        let t := emit_leaks cfg env rest v.2.1 p.2
        ({ bytes := r.size, blocks := r.count, trace := p.1 } :: t.1, t.2)
      else emit_leaks cfg env rest v.2.1 sc
    else ([], oc, sc)

/-- log_summary (lines 257-328): a no-op returning no report when the output
destination cannot be opened; otherwise group the live allocations by exact
callstack, accumulate the unfiltered lost totals, sort by size, emit the
itemized leaks, and return the document. -/
def log_summary (cfg : Config) (env : Env) (s : LogState) : LogState × Option Report :=
  if fopen_append cfg env then
    let g := groupByCallstack s.allocations
    let e := emit_leaks cfg env (allocations_by_size g).reverse s.objfile_cache s.symbol_cache
    ({ s with objfile_cache := e.2.1, symbol_cache := e.2.2 },
     some { pid := env.pid,
            runtime_allocs := s.allocinfo_total_allocs,
            runtime_frees := s.allocinfo_total_frees,
            runtime_bytes := s.allocinfo_total_alloc_bytes,
            lost_bytes := leak_total_bytes s.allocations,
            lost_blocks := leak_total_blocks s.allocations,
            leaks := e.1 })
  else (s, none)

/-- The first non-empty string of a list, or "" when every element is empty. -/
def firstNonEmpty : List String → String
  | [] => ""
  | s :: t => if s = "" then firstNonEmpty t else s

/-- The object-file basename of one address as the platform reports it, ""
when the platform cannot resolve it. -/
def resolveStr (env : Env) (a : Addr) : String := (env.dladdr_fname a).getD ""

/-- Modelled from the spec (claim C6 reference point): the validator exactly
as the claim words it, walking the captured stack from its outermost frame
inward over every frame, the innermost frame (index 0) included. -/
def log_is_valid_callstack_claim (env : Env) (callstack : List Addr) (is_alloc : Bool) : Bool :=
  let objfile := firstNonEmpty (callstack.reverse.map (resolveStr env))
  if objfile ≠ "" ∧ is_alloc = false ∧ objfile = "libobjc.A.dylib" then false else true

/-- The frame addresses the code's trace window actually emits: indices i
with 1 ≤ i ≤ depth - 1 and depth - 5 ≤ i, in increasing index order. -/
def windowAddrs (stack : List Addr) : List Addr :=
  ((stack.enum.drop 1).filter
    (fun f => decide ((stack.length : Int) - 5 ≤ (f.1 : Int)))).map (fun f => f.2)

/-- Modelled from the spec (claim C7 reference point): the trace window as
the claim words it, every index i with i >= depth - 5, index 0 included. -/
def windowAddrs_claim (stack : List Addr) : List Addr :=
  (stack.enum.filter
    (fun f => decide ((stack.length : Int) - 5 ≤ (f.1 : Int)))).map (fun f => f.2)

/-- Modelled from the spec (claim C2 reference point): the entry gate as the
claim words it, incrementing the shared depth counter on every enabled call
and flagging as nested the calls that observed a positive counter. -/
def log_event_enter_claim (s : LogState) : LogState × Bool :=
  ({ s with callcount := s.callcount + 1 }, decide (s.callcount ≠ 0))

/-- The addresses of the allocate events of a sequence, in order. -/
def allocAddrs : List HEvent → List Addr
  | [] => []
  | .malloc p _ _ :: t => p :: allocAddrs t
  | .free _ _ :: t => allocAddrs t

/-- Whether a sequence contains a free of address p. -/
def hasFree (p : Addr) : List HEvent → Bool
  | [] => false
  | .malloc _ _ _ :: t => hasFree p t
  | .free q _ :: t => if q = p then true else hasFree p t

/-- Sum of the sizes of the allocate events whose address has no later
matching free event in the sequence. -/
def keptBytes : List HEvent → Nat
  | [] => 0
  | .malloc p sz _ :: t => (if hasFree p t then 0 else sz) + keptBytes t
  | .free _ _ :: t => keptBytes t

/-- Sum of the sizes of all allocate events of a sequence. -/
def sumAllocSizes : List HEvent → Nat
  | [] => 0
  | .malloc _ sz _ :: t => sz + sumAllocSizes t
  | .free _ _ :: t => sumAllocSizes t

/-- Sum of the sizes of the records currently in the allocation table. -/
def tableSum (m : List (Addr × hu_allocinfo_t)) : Nat :=
  (m.map (fun e => e.2.size)).sum

/-- Sum of the sizes of the table entries whose address is never freed in the
given event sequence. -/
def keptTableBytes (m : List (Addr × hu_allocinfo_t)) (evs : List HEvent) : Nat :=
  ((m.filter (fun e => !hasFree e.1 evs)).map (fun e => e.2.size)).sum

instance : IsTotal hu_allocinfo_t (fun a b => a.size ≤ b.size) :=
  ⟨fun a b => Nat.le_total a.size b.size⟩

instance : IsTrans hu_allocinfo_t (fun a b => a.size ≤ b.size) :=
  ⟨fun _ _ _ hab hbc => Nat.le_trans hab hbc⟩

theorem log_event_work_callcount (cfg : Config) (env : Env) (ev : HEvent) (s : LogState) :
    (log_event_work cfg env ev s).callcount = s.callcount := by
  cases ev <;> simp only [log_event_work] <;> (repeat' split) <;> rfl

theorem log_event_work_logging (cfg : Config) (env : Env) (ev : HEvent) (s : LogState) :
    (log_event_work cfg env ev s).logging_enabled = s.logging_enabled := by
  cases ev <;> simp only [log_event_work] <;> (repeat' split) <;> rfl

/-- A non-recursive enabled call performs the bookkeeping with callcount held
at 1 and restores callcount to 0 on exit. -/
theorem log_event_eq_work (cfg : Config) (env : Env) (ev : HEvent) (s : LogState)
    (hen : s.logging_enabled = true) (hc0 : s.callcount = 0) :
    log_event cfg env ev s =
      { log_event_work cfg env ev { s with callcount := 1 } with callcount := 0 } := by
  have h1 : ∀ t : LogState, (log_event_work cfg env ev t).callcount = t.callcount :=
    fun t => log_event_work_callcount cfg env ev t
  simp [log_event, log_event_enter, hen, hc0, h1]

/-- A nested enabled call (one that observed callcount > 0) changes nothing
at all. -/
theorem log_event_nested (cfg : Config) (env : Env) (ev : HEvent) (s : LogState)
    (hen : s.logging_enabled = true) (hpos : 0 < s.callcount) :
    log_event cfg env ev s = s := by
  have hne : ¬ s.callcount = 0 := by omega
  simp [log_event, log_event_enter, hen, hne]

theorem work_malloc_allocations (cfg : Config) (env : Env) (p sz : Nat) (st : List Addr)
    (s : LogState) : (log_event_work cfg env (.malloc p sz st) s).allocations
      = mset p { ptr := p, size := sz, callstack := st, count := 1 } s.allocations := by
  simp only [log_event_work] <;> split <;> rfl

theorem work_malloc_current (cfg : Config) (env : Env) (p sz : Nat) (st : List Addr)
    (s : LogState) : (log_event_work cfg env (.malloc p sz st) s).allocinfo_current_alloc_bytes
      = add64 s.allocinfo_current_alloc_bytes sz := by
  simp only [log_event_work] <;> split <;> rfl

theorem work_free_found (cfg : Config) (env : Env) (p : Nat) (st : List Addr) (s : LogState)
    (info : hu_allocinfo_t) (h : mlookup p s.allocations = some info) :
    log_event_work cfg env (.free p st) s =
      { s with allocations := merase p s.allocations,
               allocinfo_current_alloc_bytes := sub64 s.allocinfo_current_alloc_bytes info.size,
               allocinfo_total_frees := add64 s.allocinfo_total_frees 1 } := by
  simp [log_event_work, h]

theorem work_free_notfound_allocations (cfg : Config) (env : Env) (p : Nat) (st : List Addr)
    (s : LogState) (h : mlookup p s.allocations = none) :
    (log_event_work cfg env (.free p st) s).allocations = s.allocations := by
  simp only [log_event_work, h] <;> (repeat' split) <;> rfl

theorem work_free_notfound_current (cfg : Config) (env : Env) (p : Nat) (st : List Addr)
    (s : LogState) (h : mlookup p s.allocations = none) :
    (log_event_work cfg env (.free p st) s).allocinfo_current_alloc_bytes
      = s.allocinfo_current_alloc_bytes := by
  simp only [log_event_work, h] <;> (repeat' split) <;> rfl

theorem work_free_notfound_frees (cfg : Config) (env : Env) (p : Nat) (st : List Addr)
    (s : LogState) (h : mlookup p s.allocations = none) :
    (log_event_work cfg env (.free p st) s).allocinfo_total_frees
      = add64 s.allocinfo_total_frees 1 := by
  simp only [log_event_work, h] <;> (repeat' split) <;> rfl

theorem work_free_notfound_output (cfg : Config) (env : Env) (p : Nat) (st : List Addr)
    (s : LogState) (h : mlookup p s.allocations = none) :
    (log_event_work cfg env (.free p st) s).output =
      if cfg.hu_log_free = true
          ∧ (log_is_valid_callstack env st false s.objfile_cache).1 = true
          ∧ fopen_append cfg env = true then
        s.output ++ [" Invalid deallocation at:", ""]
      else s.output := by
  by_cases hf : cfg.hu_log_free = true
  · by_cases hv : (log_is_valid_callstack env st false s.objfile_cache).1 = true
    · by_cases ho : fopen_append cfg env = true
      · simp [log_event_work, h, hf, hv, ho]
      · simp [log_event_work, h, hf, hv, ho]
    · simp only [Bool.not_eq_true] at hv
      simp [log_event_work, h, hf, hv]
  · simp only [Bool.not_eq_true] at hf
    simp [log_event_work, h, hf]

/-- The concrete state of a nested (reentrant) call: logging enabled, depth
counter already raised to 1 by the outer call. -/
def stateNested : LogState := { initState with logging_enabled := true, callcount := 1 }

/-- Claim C2, counterexample: at a nested enabled call (callcount = 1) the
code's entry gate does not increment the depth counter (it stays 1), while
the gate as the claim words it would raise it to 2; so the claim's "a single
shared depth counter ... is incremented at entry" is false of the code. -/
theorem C2_counterexample :
    (log_event_enter stateNested).1.callcount = 1 ∧
    (log_event_enter_claim stateNested).1.callcount = 2 ∧
    ¬ (log_event_enter stateNested).1.callcount = stateNested.callcount + 1 := by
  decide

/-- Claim C2 (amended): on an enabled call, the depth counter is incremented
at entry only by a call that finds it at 0; a call that finds it positive is
flagged as nested, performs no bookkeeping, leaves the whole state (counter
included) untouched, and does not decrement on exit; in all cases the
counter is back at its entry value when the call returns, so a reentrant
call produces no additional table entry and no counter double-increment. -/
theorem C2_depth_gate (cfg : Config) (env : Env) (ev : HEvent) (s : LogState)
    (hen : s.logging_enabled = true) :
    (s.callcount = 0 → log_event_enter s = ({ s with callcount := 1 }, false)) ∧
    (0 < s.callcount → log_event_enter s = (s, true) ∧ log_event cfg env ev s = s) ∧
    (log_event cfg env ev s).callcount = s.callcount := by
  refine ⟨?_, ?_, ?_⟩
  · intro h0; simp [log_event_enter, h0]
  · intro hpos
    have hne : ¬ s.callcount = 0 := by omega
    exact ⟨by simp [log_event_enter, hne], log_event_nested cfg env ev s hen hpos⟩
  · by_cases h0 : s.callcount = 0
    · rw [log_event_eq_work cfg env ev s hen h0, h0]
    · rw [log_event_nested cfg env ev s hen (Nat.pos_of_ne_zero h0)]

/-- Concrete environment in which the platform resolves no address and the
output destination opens. -/
def envA : Env :=
  { dladdr_fname := fun _ => none, dladdr_sym := fun _ => none,
    demangle := fun _ => none, fopen_ok := true, pid := 42 }

/-- Concrete environment resolving address 7 to the excluded library and
nothing else. -/
def envB : Env :=
  { dladdr_fname := fun a => if a = 7 then some "libobjc.A.dylib" else none,
    dladdr_sym := fun _ => none, demangle := fun _ => none, fopen_ok := true, pid := 42 }

/-- Concrete configuration with an output file and default options. -/
def cfgA : Config :=
  { hu_log_file := some "heapusage.log", hu_log_free := false,
    hu_log_nosyms := false, hu_log_minleak := 0 }

/-- Concrete configuration with invalid-free tracking on and a positive
minimum-leak threshold. -/
def cfgB : Config :=
  { hu_log_file := some "heapusage.log", hu_log_free := true,
    hu_log_nosyms := false, hu_log_minleak := 50 }

theorem C2_depth_gate_witness :
    stateNested.logging_enabled = true ∧
    ((stateNested.callcount = 0 →
        log_event_enter stateNested = ({ stateNested with callcount := 1 }, false)) ∧
     (0 < stateNested.callcount →
        log_event_enter stateNested = (stateNested, true) ∧
        log_event cfgA envA (HEvent.free 0 []) stateNested = stateNested) ∧
     (log_event cfgA envA (HEvent.free 0 []) stateNested).callcount
        = stateNested.callcount) :=
  ⟨by decide, C2_depth_gate cfgA envA (HEvent.free 0 []) stateNested (by decide)⟩

/-- Claim C8: an address the platform cannot resolve yields the empty string,
which is stored in the symbol cache; the next resolution of the same address
is answered from the cache (third component false: no platform lookup) with
the same empty string. -/
theorem C8_unresolved_cached (env : Env) (addr : Addr) (cache : List (Addr × String))
    (h1 : env.dladdr_sym addr = none) (h2 : mlookup addr cache = none) :
    addr_to_symbol env addr cache = ("", mset addr "" cache, true) ∧
    addr_to_symbol env addr (mset addr "" cache) = ("", mset addr "" cache, false) := by
  constructor
  · simp [addr_to_symbol, h1, h2]
  · simp [addr_to_symbol, mlookup_mset_self]

theorem C8_unresolved_cached_witness :
    envA.dladdr_sym 3 = none ∧ mlookup 3 ([] : List (Addr × String)) = none ∧
    (addr_to_symbol envA 3 [] = ("", mset 3 "" [], true) ∧
     addr_to_symbol envA 3 (mset 3 "" []) = ("", mset 3 "" [], false)) :=
  ⟨rfl, rfl, C8_unresolved_cached envA 3 [] rfl rfl⟩

theorem tableSum_cons (e : Addr × hu_allocinfo_t) (t : List (Addr × hu_allocinfo_t)) :
    tableSum (e :: t) = e.2.size + tableSum t := by
  simp [tableSum]

theorem tableSum_merase_of_lookup (p : Addr) (m : List (Addr × hu_allocinfo_t))
    (info : hu_allocinfo_t) (hnd : (m.map Prod.fst).Nodup)
    (h : mlookup p m = some info) :
    info.size ≤ tableSum m ∧ tableSum (merase p m) = tableSum m - info.size := by
  induction m with
  | nil => simp [mlookup] at h
  | cons e t ih =>
    rw [List.map_cons, List.nodup_cons] at hnd
    by_cases he : e.1 = p
    · have hinfo : info = e.2 := by
        simp [mlookup, he] at h
        exact h.symm
      have hp : p ∉ t.map Prod.fst := by rw [← he]; exact hnd.1
      have ht : merase p t = t :=
        merase_eq_self_of_none p t (mlookup_eq_none_of_not_mem_keys p t hp)
      have h1 : merase p (e :: t) = t := by
        simp [merase, he] at ht ⊢
        exact ht
      rw [h1, tableSum_cons, hinfo]
      omega
    · have h2 : mlookup p t = some info := by
        simpa [mlookup, he] using h
      obtain ⟨hle, heq⟩ := ih hnd.2 h2
      have h1 : merase p (e :: t) = e :: merase p t := by simp [merase, he]
      rw [h1, tableSum_cons, tableSum_cons, heq]
      constructor
      · omega
      · omega

theorem log_event_callcount_zero (cfg : Config) (env : Env) (ev : HEvent) (s : LogState)
    (hen : s.logging_enabled = true) (hc0 : s.callcount = 0) :
    (log_event cfg env ev s).callcount = 0 := by
  rw [log_event_eq_work cfg env ev s hen hc0]

theorem log_event_logging (cfg : Config) (env : Env) (ev : HEvent) (s : LogState)
    (hen : s.logging_enabled = true) (hc0 : s.callcount = 0) :
    (log_event cfg env ev s).logging_enabled = true := by
  rw [log_event_eq_work cfg env ev s hen hc0]
  show (log_event_work cfg env ev { s with callcount := 1 }).logging_enabled = true
  rw [log_event_work_logging]
  exact hen

/-- Claim C3: an enabled, non-nested free of an address with no table entry
leaves current bytes and the allocation table unchanged and increments total
frees by one; with invalid-free tracking on, a validator-approved freshly
captured stack and an openable destination, exactly one invalid-deallocation
diagnostic line is appended to the output. -/
theorem C3_invalid_free_logged (cfg : Config) (env : Env) (s : LogState) (p : Addr)
    (stack : List Addr)
    (hen : s.logging_enabled = true) (hc0 : s.callcount = 0)
    (hnf : mlookup p s.allocations = none)
    (hflag : cfg.hu_log_free = true)
    (hvalid : (log_is_valid_callstack env stack false s.objfile_cache).1 = true)
    (hopen : fopen_append cfg env = true)
    (hof : s.allocinfo_total_frees + 1 < 2 ^ 64) :
    (log_event cfg env (.free p stack) s).allocinfo_current_alloc_bytes
        = s.allocinfo_current_alloc_bytes ∧
    (log_event cfg env (.free p stack) s).allocations = s.allocations ∧
    (log_event cfg env (.free p stack) s).allocinfo_total_frees
        = s.allocinfo_total_frees + 1 ∧
    (log_event cfg env (.free p stack) s).output
        = s.output ++ [" Invalid deallocation at:", ""] ∧
    (log_event cfg env (.free p stack) s).output.count " Invalid deallocation at:"
        = s.output.count " Invalid deallocation at:" + 1 := by
  rw [log_event_eq_work cfg env (.free p stack) s hen hc0]
  have hnf1 : mlookup p ({ s with callcount := 1 } : LogState).allocations = none := hnf
  have hout : (log_event_work cfg env (.free p stack) { s with callcount := 1 }).output
      = s.output ++ [" Invalid deallocation at:", ""] := by
    rw [work_free_notfound_output cfg env p stack { s with callcount := 1 } hnf1]
    rw [if_pos ⟨hflag, hvalid, hopen⟩]
  refine ⟨?_, ?_, ?_, ?_, ?_⟩
  · exact work_free_notfound_current cfg env p stack { s with callcount := 1 } hnf1
  · exact work_free_notfound_allocations cfg env p stack { s with callcount := 1 } hnf1
  · have h3 : (log_event_work cfg env (.free p stack) { s with callcount := 1 }).allocinfo_total_frees
        = add64 s.allocinfo_total_frees 1 :=
      work_free_notfound_frees cfg env p stack { s with callcount := 1 } hnf1
    show (log_event_work cfg env (.free p stack) { s with callcount := 1 }).allocinfo_total_frees
        = s.allocinfo_total_frees + 1
    rw [h3]
    exact add64_eq hof
  · exact hout
  · show (log_event_work cfg env (.free p stack) { s with callcount := 1 }).output.count
        " Invalid deallocation at:" = s.output.count " Invalid deallocation at:" + 1
    rw [hout, List.count_append]
    norm_num
    decide

/-- The enabled post-init state. -/
def stateE : LogState := { initState with logging_enabled := true }

theorem C3_invalid_free_logged_witness :
    (log_is_valid_callstack envA [1, 2] false stateE.objfile_cache).1 = true ∧
    ((log_event cfgB envA (HEvent.free 5 [1, 2]) stateE).allocinfo_current_alloc_bytes
        = stateE.allocinfo_current_alloc_bytes ∧
     (log_event cfgB envA (HEvent.free 5 [1, 2]) stateE).allocations = stateE.allocations ∧
     (log_event cfgB envA (HEvent.free 5 [1, 2]) stateE).allocinfo_total_frees
        = stateE.allocinfo_total_frees + 1 ∧
     (log_event cfgB envA (HEvent.free 5 [1, 2]) stateE).output
        = stateE.output ++ [" Invalid deallocation at:", ""] ∧
     (log_event cfgB envA (HEvent.free 5 [1, 2]) stateE).output.count " Invalid deallocation at:"
        = stateE.output.count " Invalid deallocation at:" + 1) :=
  ⟨by decide,
   C3_invalid_free_logged cfgB envA stateE 5 [1, 2] (by decide) (by decide) (by decide)
     (by decide) (by decide) (by decide) (by decide)⟩

/-- Claim C9: an enabled, non-nested free of an untracked pointer completes
under every configuration (including one with no output destination): total
frees is incremented, table and current bytes are unchanged, and the
diagnostic is appended exactly when the flag, the validator and the
destination all permit it. -/
theorem C9_untracked_free_total (cfg : Config) (env : Env) (s : LogState) (p : Addr)
    (stack : List Addr)
    (hen : s.logging_enabled = true) (hc0 : s.callcount = 0)
    (hnf : mlookup p s.allocations = none)
    (hof : s.allocinfo_total_frees + 1 < 2 ^ 64) :
    (log_event cfg env (.free p stack) s).allocinfo_total_frees
        = s.allocinfo_total_frees + 1 ∧
    (log_event cfg env (.free p stack) s).allocations = s.allocations ∧
    (log_event cfg env (.free p stack) s).allocinfo_current_alloc_bytes
        = s.allocinfo_current_alloc_bytes ∧
    (log_event cfg env (.free p stack) s).output
        = (if cfg.hu_log_free = true
              ∧ (log_is_valid_callstack env stack false s.objfile_cache).1 = true
              ∧ fopen_append cfg env = true then
             s.output ++ [" Invalid deallocation at:", ""]
           else s.output) := by
  rw [log_event_eq_work cfg env (.free p stack) s hen hc0]
  have hnf1 : mlookup p ({ s with callcount := 1 } : LogState).allocations = none := hnf
  refine ⟨?_, ?_, ?_, ?_⟩
  · have h3 := work_free_notfound_frees cfg env p stack { s with callcount := 1 } hnf1
    show (log_event_work cfg env (.free p stack) { s with callcount := 1 }).allocinfo_total_frees
        = s.allocinfo_total_frees + 1
    rw [h3]
    exact add64_eq hof
  · exact work_free_notfound_allocations cfg env p stack { s with callcount := 1 } hnf1
  · exact work_free_notfound_current cfg env p stack { s with callcount := 1 } hnf1
  · exact work_free_notfound_output cfg env p stack { s with callcount := 1 } hnf1

/-- Configuration with no output destination at all. -/
def cfgNoFile : Config :=
  { hu_log_file := none, hu_log_free := true, hu_log_nosyms := false, hu_log_minleak := 0 }

theorem C9_untracked_free_total_witness :
    mlookup 5 stateE.allocations = none ∧
    ((log_event cfgNoFile envA (HEvent.free 5 [1, 2]) stateE).allocinfo_total_frees
        = stateE.allocinfo_total_frees + 1 ∧
     (log_event cfgNoFile envA (HEvent.free 5 [1, 2]) stateE).allocations
        = stateE.allocations ∧
     (log_event cfgNoFile envA (HEvent.free 5 [1, 2]) stateE).allocinfo_current_alloc_bytes
        = stateE.allocinfo_current_alloc_bytes ∧
     (log_event cfgNoFile envA (HEvent.free 5 [1, 2]) stateE).output
        = (if cfgNoFile.hu_log_free = true
              ∧ (log_is_valid_callstack envA [1, 2] false stateE.objfile_cache).1 = true
              ∧ fopen_append cfgNoFile envA = true then
             stateE.output ++ [" Invalid deallocation at:", ""]
           else stateE.output)) :=
  ⟨by decide,
   C9_untracked_free_total cfgNoFile envA stateE 5 [1, 2] (by decide) (by decide) (by decide)
     (by decide)⟩

theorem log_event_malloc_allocations (cfg : Config) (env : Env) (p sz : Nat)
    (st : List Addr) (s : LogState)
    (hen : s.logging_enabled = true) (hc0 : s.callcount = 0) :
    (log_event cfg env (.malloc p sz st) s).allocations
      = mset p { ptr := p, size := sz, callstack := st, count := 1 } s.allocations := by
  rw [log_event_eq_work cfg env (.malloc p sz st) s hen hc0]
  exact work_malloc_allocations cfg env p sz st { s with callcount := 1 }

theorem log_event_malloc_current (cfg : Config) (env : Env) (p sz : Nat)
    (st : List Addr) (s : LogState)
    (hen : s.logging_enabled = true) (hc0 : s.callcount = 0) :
    (log_event cfg env (.malloc p sz st) s).allocinfo_current_alloc_bytes
      = add64 s.allocinfo_current_alloc_bytes sz := by
  rw [log_event_eq_work cfg env (.malloc p sz st) s hen hc0]
  exact work_malloc_current cfg env p sz st { s with callcount := 1 }

theorem log_event_free_found_current (cfg : Config) (env : Env) (p : Nat)
    (st : List Addr) (s : LogState) (info : hu_allocinfo_t)
    (hen : s.logging_enabled = true) (hc0 : s.callcount = 0)
    (h : mlookup p s.allocations = some info) :
    (log_event cfg env (.free p st) s).allocinfo_current_alloc_bytes
      = sub64 s.allocinfo_current_alloc_bytes info.size := by
  rw [log_event_eq_work cfg env (.free p st) s hen hc0]
  have h1 : mlookup p ({ s with callcount := 1 } : LogState).allocations = some info := h
  rw [work_free_found cfg env p st { s with callcount := 1 } info h1]

/-- Claim C10: an enabled, non-nested allocate at an address that already has
a live entry of size old.size overwrites that entry with the fresh record,
adds the new size to current bytes without subtracting the old one (so
current bytes now exceed the table sum by exactly old.size), and a following
free of the same address subtracts only the new size. -/
theorem C10_realloc_leaks_old_size (cfg : Config) (env : Env) (s : LogState) (p sz : Nat)
    (st st2 : List Addr) (old : hu_allocinfo_t)
    (hen : s.logging_enabled = true) (hc0 : s.callcount = 0)
    (hold : mlookup p s.allocations = some old)
    (hnd : (s.allocations.map Prod.fst).Nodup)
    (hcur : s.allocinfo_current_alloc_bytes = tableSum s.allocations)
    (hb : tableSum s.allocations + sz < 2 ^ 64) :
    mlookup p (log_event cfg env (.malloc p sz st) s).allocations
        = some { ptr := p, size := sz, callstack := st, count := 1 } ∧
    (log_event cfg env (.malloc p sz st) s).allocinfo_current_alloc_bytes
        = s.allocinfo_current_alloc_bytes + sz ∧
    tableSum (log_event cfg env (.malloc p sz st) s).allocations
        = tableSum s.allocations - old.size + sz ∧
    (log_event cfg env (.malloc p sz st) s).allocinfo_current_alloc_bytes
        = tableSum (log_event cfg env (.malloc p sz st) s).allocations + old.size ∧
    (log_event cfg env (.free p st2) (log_event cfg env (.malloc p sz st) s)).allocinfo_current_alloc_bytes
        = (log_event cfg env (.malloc p sz st) s).allocinfo_current_alloc_bytes - sz := by
  have hallocs := log_event_malloc_allocations cfg env p sz st s hen hc0
  have hcur2 := log_event_malloc_current cfg env p sz st s hen hc0
  have hole : old.size ≤ tableSum s.allocations :=
    (tableSum_merase_of_lookup p s.allocations old hnd hold).1
  have hmer : tableSum (merase p s.allocations) = tableSum s.allocations - old.size :=
    (tableSum_merase_of_lookup p s.allocations old hnd hold).2
  have h1 : mlookup p (log_event cfg env (.malloc p sz st) s).allocations
      = some { ptr := p, size := sz, callstack := st, count := 1 } := by
    rw [hallocs]; exact mlookup_mset_self p _ s.allocations
  have h2 : (log_event cfg env (.malloc p sz st) s).allocinfo_current_alloc_bytes
      = s.allocinfo_current_alloc_bytes + sz := by
    rw [hcur2]; exact add64_eq (by omega)
  have h3 : tableSum (log_event cfg env (.malloc p sz st) s).allocations
      = tableSum s.allocations - old.size + sz := by
    rw [hallocs]
    show tableSum ((p, { ptr := p, size := sz, callstack := st, count := 1 })
        :: merase p s.allocations) = tableSum s.allocations - old.size + sz
    rw [tableSum_cons, hmer]
    show sz + (tableSum s.allocations - old.size) = tableSum s.allocations - old.size + sz
    omega
  refine ⟨h1, h2, h3, ?_, ?_⟩
  · rw [h2, h3, hcur]
    omega
  · have hen2 : (log_event cfg env (.malloc p sz st) s).logging_enabled = true :=
      log_event_logging cfg env (.malloc p sz st) s hen hc0
    have hc02 : (log_event cfg env (.malloc p sz st) s).callcount = 0 :=
      log_event_callcount_zero cfg env (.malloc p sz st) s hen hc0
    rw [log_event_free_found_current cfg env p st2 (log_event cfg env (.malloc p sz st) s)
        { ptr := p, size := sz, callstack := st, count := 1 } hen2 hc02 h1]
    show sub64 (log_event cfg env (.malloc p sz st) s).allocinfo_current_alloc_bytes sz
        = (log_event cfg env (.malloc p sz st) s).allocinfo_current_alloc_bytes - sz
    rw [h2]
    exact sub64_eq (by omega) (by omega)

/-- A state with one live allocation of 30 bytes at address 5. -/
def stateC10 : LogState :=
  { initState with logging_enabled := true,
                   allocations := [(5, { ptr := 5, size := 30, callstack := [], count := 1 })],
                   allocinfo_current_alloc_bytes := 30 }

theorem C10_realloc_leaks_old_size_witness :
    mlookup 5 stateC10.allocations
        = some { ptr := 5, size := 30, callstack := [], count := 1 } ∧
    (mlookup 5 (log_event cfgA envA (HEvent.malloc 5 100 [9]) stateC10).allocations
        = some { ptr := 5, size := 100, callstack := [9], count := 1 } ∧
     (log_event cfgA envA (HEvent.malloc 5 100 [9]) stateC10).allocinfo_current_alloc_bytes
        = stateC10.allocinfo_current_alloc_bytes + 100 ∧
     tableSum (log_event cfgA envA (HEvent.malloc 5 100 [9]) stateC10).allocations
        = tableSum stateC10.allocations - 30 + 100 ∧
     (log_event cfgA envA (HEvent.malloc 5 100 [9]) stateC10).allocinfo_current_alloc_bytes
        = tableSum (log_event cfgA envA (HEvent.malloc 5 100 [9]) stateC10).allocations + 30 ∧
     (log_event cfgA envA (HEvent.free 5 [8])
        (log_event cfgA envA (HEvent.malloc 5 100 [9]) stateC10)).allocinfo_current_alloc_bytes
        = (log_event cfgA envA (HEvent.malloc 5 100 [9]) stateC10).allocinfo_current_alloc_bytes
            - 100) :=
  ⟨by decide,
   C10_realloc_leaks_old_size cfgA envA stateC10 5 100 [9] [8]
     { ptr := 5, size := 30, callstack := [], count := 1 }
     (by decide) (by decide) (by decide) (by decide) (by decide) (by decide)⟩

theorem not_mem_keys_of_mlookup_none {α β : Type} [DecidableEq α] (k : α)
    (m : List (α × β)) (h : mlookup k m = none) : k ∉ m.map Prod.fst := by
  rw [mlookup_eq_none_iff] at h
  intro hk
  obtain ⟨e, he, hke⟩ := List.mem_map.mp hk
  exact h e he hke

theorem mlookup_merase_self {α β : Type} [DecidableEq α] (k : α) (m : List (α × β)) :
    mlookup k (merase k m) = none :=
  mlookup_eq_none_of_not_mem_keys k (merase k m) (keys_merase_not_mem k m)

theorem log_event_free_found_allocations (cfg : Config) (env : Env) (p : Nat)
    (st : List Addr) (s : LogState) (info : hu_allocinfo_t)
    (hen : s.logging_enabled = true) (hc0 : s.callcount = 0)
    (h : mlookup p s.allocations = some info) :
    (log_event cfg env (.free p st) s).allocations = merase p s.allocations := by
  rw [log_event_eq_work cfg env (.free p st) s hen hc0]
  have h1 : mlookup p ({ s with callcount := 1 } : LogState).allocations = some info := h
  rw [work_free_found cfg env p st { s with callcount := 1 } info h1]

theorem log_event_free_notfound_allocations (cfg : Config) (env : Env) (p : Nat)
    (st : List Addr) (s : LogState)
    (hen : s.logging_enabled = true) (hc0 : s.callcount = 0)
    (h : mlookup p s.allocations = none) :
    (log_event cfg env (.free p st) s).allocations = s.allocations := by
  rw [log_event_eq_work cfg env (.free p st) s hen hc0]
  exact work_free_notfound_allocations cfg env p st { s with callcount := 1 } h

theorem log_event_free_notfound_current (cfg : Config) (env : Env) (p : Nat)
    (st : List Addr) (s : LogState)
    (hen : s.logging_enabled = true) (hc0 : s.callcount = 0)
    (h : mlookup p s.allocations = none) :
    (log_event cfg env (.free p st) s).allocinfo_current_alloc_bytes
      = s.allocinfo_current_alloc_bytes := by
  rw [log_event_eq_work cfg env (.free p st) s hen hc0]
  exact work_free_notfound_current cfg env p st { s with callcount := 1 } h

theorem processEvents_cons (cfg : Config) (env : Env) (ev : HEvent) (t : List HEvent)
    (s : LogState) :
    processEvents cfg env (ev :: t) s = processEvents cfg env t (log_event cfg env ev s) := rfl

theorem keptTableBytes_nil (m : List (Addr × hu_allocinfo_t)) :
    keptTableBytes m [] = tableSum m := by
  simp [keptTableBytes, hasFree, tableSum]

theorem keptTableBytes_malloc (p sz : Nat) (st : List Addr)
    (m : List (Addr × hu_allocinfo_t)) (t : List HEvent) :
    keptTableBytes m (HEvent.malloc p sz st :: t) = keptTableBytes m t := by
  unfold keptTableBytes
  apply congrArg
  apply congrArg
  apply List.filter_congr
  intro e _
  simp [hasFree]

theorem keptTableBytes_free (p : Addr) (st : List Addr)
    (m : List (Addr × hu_allocinfo_t)) (t : List HEvent) :
    keptTableBytes m (HEvent.free p st :: t) = keptTableBytes (merase p m) t := by
  unfold keptTableBytes merase
  rw [List.filter_filter]
  apply congrArg
  apply congrArg
  apply List.filter_congr
  intro e _
  by_cases hp : p = e.1
  · simp [hasFree, hp]
  · have hp2 : e.1 ≠ p := fun hk => hp hk.symm
    simp [hasFree, hp, hp2]

theorem keptTableBytes_cons (e : Addr × hu_allocinfo_t)
    (m : List (Addr × hu_allocinfo_t)) (evs : List HEvent) :
    keptTableBytes (e :: m) evs
      = (if hasFree e.1 evs = true then 0 else e.2.size) + keptTableBytes m evs := by
  by_cases h : hasFree e.1 evs <;> simp [keptTableBytes, h]

/-- The central bookkeeping invariant behind claim C1: starting from an
enabled, non-nested state whose current-bytes counter equals the table sum,
processing any overflow-free event sequence whose allocate addresses are
fresh and pairwise distinct ends with current-bytes equal to the surviving
part of the initial table plus the surviving new allocations. -/
theorem processEvents_current_invariant (cfg : Config) (env : Env) :
    ∀ (evs : List HEvent) (s : LogState),
      s.logging_enabled = true → s.callcount = 0 →
      (s.allocations.map Prod.fst).Nodup →
      s.allocinfo_current_alloc_bytes = tableSum s.allocations →
      tableSum s.allocations + sumAllocSizes evs < 2 ^ 64 →
      (allocAddrs evs).Nodup →
      (∀ q ∈ allocAddrs evs, mlookup q s.allocations = none) →
      (processEvents cfg env evs s).allocinfo_current_alloc_bytes
        = keptTableBytes s.allocations evs + keptBytes evs := by
  intro evs
  induction evs with
  | nil =>
    intro s _ _ _ hcur _ _ _
    simpa [processEvents, keptTableBytes_nil, keptBytes] using hcur
  | cons ev t ih =>
    intro s hen hc0 hnd hcur hb hndA hnone
    cases ev with
    | malloc p sz st =>
      have hsum : sumAllocSizes (HEvent.malloc p sz st :: t) = sz + sumAllocSizes t := rfl
      have hpmem : p ∈ allocAddrs (HEvent.malloc p sz st :: t) := by
        simp [allocAddrs]
      have hpn : mlookup p s.allocations = none := hnone p hpmem
      have hall : (log_event cfg env (.malloc p sz st) s).allocations
          = (p, { ptr := p, size := sz, callstack := st, count := 1 }) :: s.allocations := by
        rw [log_event_malloc_allocations cfg env p sz st s hen hc0]
        exact mset_of_none p _ s.allocations hpn
      have hcur1 : (log_event cfg env (.malloc p sz st) s).allocinfo_current_alloc_bytes
          = s.allocinfo_current_alloc_bytes + sz := by
        rw [log_event_malloc_current cfg env p sz st s hen hc0]
        rw [hsum] at hb
        exact add64_eq (by omega)
      have hts1 : tableSum (log_event cfg env (.malloc p sz st) s).allocations
          = sz + tableSum s.allocations := by
        rw [hall, tableSum_cons]
      have hnd1 : ((log_event cfg env (.malloc p sz st) s).allocations.map Prod.fst).Nodup := by
        rw [hall, List.map_cons, List.nodup_cons]
        exact ⟨not_mem_keys_of_mlookup_none p s.allocations hpn, hnd⟩
      have hndA1 : (allocAddrs t).Nodup := by
        have : allocAddrs (HEvent.malloc p sz st :: t) = p :: allocAddrs t := rfl
        rw [this, List.nodup_cons] at hndA
        exact hndA.2
      have hpt : p ∉ allocAddrs t := by
        have : allocAddrs (HEvent.malloc p sz st :: t) = p :: allocAddrs t := rfl
        rw [this, List.nodup_cons] at hndA
        exact hndA.1
      have hnone1 : ∀ q ∈ allocAddrs t,
          mlookup q (log_event cfg env (.malloc p sz st) s).allocations = none := by
        intro q hq
        rw [hall]
        have hqp : p ≠ q := fun hk => hpt (hk ▸ hq)
        have hq2 : q ∈ allocAddrs (HEvent.malloc p sz st :: t) := by
          have : allocAddrs (HEvent.malloc p sz st :: t) = p :: allocAddrs t := rfl
          rw [this]
          exact List.mem_cons_of_mem p hq
        simpa [mlookup, hqp] using hnone q hq2
      have hih := ih (log_event cfg env (.malloc p sz st) s) (log_event_logging cfg env _ s hen hc0)
        (log_event_callcount_zero cfg env _ s hen hc0) hnd1
        (by rw [hcur1, hts1, hcur]; omega)
        (by rw [hts1]; rw [hsum] at hb; omega)
        hndA1 hnone1
      rw [processEvents_cons, hih, hall, keptTableBytes_cons]
      have hkb : keptBytes (HEvent.malloc p sz st :: t)
          = (if hasFree p t = true then 0 else sz) + keptBytes t := by
        by_cases hf : hasFree p t <;> simp [keptBytes, hf]
      rw [keptTableBytes_malloc, hkb]
      show (if hasFree p t = true then 0 else sz) + keptTableBytes s.allocations t + keptBytes t
          = keptTableBytes s.allocations t + ((if hasFree p t = true then 0 else sz) + keptBytes t)
      omega
    | free p st =>
      have hsum : sumAllocSizes (HEvent.free p st :: t) = sumAllocSizes t := rfl
      have haddr : allocAddrs (HEvent.free p st :: t) = allocAddrs t := rfl
      have hkb : keptBytes (HEvent.free p st :: t) = keptBytes t := rfl
      cases hq : mlookup p s.allocations with
      | some info =>
        have hole := (tableSum_merase_of_lookup p s.allocations info hnd hq).1
        have hmer := (tableSum_merase_of_lookup p s.allocations info hnd hq).2
        have hall : (log_event cfg env (.free p st) s).allocations
            = merase p s.allocations :=
          log_event_free_found_allocations cfg env p st s info hen hc0 hq
        have hcur1 : (log_event cfg env (.free p st) s).allocinfo_current_alloc_bytes
            = s.allocinfo_current_alloc_bytes - info.size := by
          rw [log_event_free_found_current cfg env p st s info hen hc0 hq]
          rw [hsum] at hb
          exact sub64_eq (by rw [hcur]; omega) (by rw [hcur]; omega)
        have hnd1 : ((log_event cfg env (.free p st) s).allocations.map Prod.fst).Nodup := by
          rw [hall]
          exact nodup_keys_merase p s.allocations hnd
        have hnone1 : ∀ q ∈ allocAddrs t,
            mlookup q (log_event cfg env (.free p st) s).allocations = none := by
          intro q hqmem
          rw [hall]
          by_cases hqp : q = p
          · rw [hqp]
            exact mlookup_merase_self p s.allocations
          · rw [mlookup_merase_ne p q s.allocations hqp]
            exact hnone q (by rw [haddr]; exact hqmem)
        have hih := ih (log_event cfg env (.free p st) s)
          (log_event_logging cfg env _ s hen hc0)
          (log_event_callcount_zero cfg env _ s hen hc0) hnd1
          (by rw [hcur1, hall, hmer, hcur])
          (by rw [hall, hmer]; rw [hsum] at hb; omega)
          (by rw [haddr] at hndA; exact hndA)
          hnone1
        rw [processEvents_cons, hih, hall, keptTableBytes_free, hkb]
      | none =>
        have hall : (log_event cfg env (.free p st) s).allocations = s.allocations :=
          log_event_free_notfound_allocations cfg env p st s hen hc0 hq
        have hcur1 : (log_event cfg env (.free p st) s).allocinfo_current_alloc_bytes
            = s.allocinfo_current_alloc_bytes :=
          log_event_free_notfound_current cfg env p st s hen hc0 hq
        have hih := ih (log_event cfg env (.free p st) s)
          (log_event_logging cfg env _ s hen hc0)
          (log_event_callcount_zero cfg env _ s hen hc0)
          (by rw [hall]; exact hnd)
          (by rw [hcur1, hall, hcur])
          (by rw [hall]; rw [hsum] at hb; exact hb)
          (by rw [haddr] at hndA; exact hndA)
          (by intro q hqmem; rw [hall]; exact hnone q (by rw [haddr]; exact hqmem))
        rw [processEvents_cons, hih, hall, keptTableBytes_free, hkb,
          merase_eq_self_of_none p s.allocations hq]

/-- Claim C1: processing any enabled, non-reentrant event sequence whose
allocate addresses are pairwise distinct from the freshly initialized,
enabled state ends with the current-bytes counter equal to the sum of the
sizes of exactly those allocate events whose address has no later matching
free event. -/
theorem C1_current_equals_live_sum (cfg : Config) (env : Env) (evs : List HEvent)
    (hnd : (allocAddrs evs).Nodup) (hb : sumAllocSizes evs < 2 ^ 64) :
    (processEvents cfg env evs stateE).allocinfo_current_alloc_bytes = keptBytes evs := by
  have h := processEvents_current_invariant cfg env evs stateE rfl rfl (by simp [stateE, initState])
    rfl (by simpa [stateE, initState, tableSum] using hb) hnd
    (fun q _ => rfl)
  rw [h]
  have h2 : keptTableBytes stateE.allocations evs = 0 := by
    simp [stateE, initState, keptTableBytes]
  rw [h2]
  omega

/-- The concrete event sequence of the C1 witness: two allocations and one
matching free on distinct addresses. -/
def evsA : List HEvent :=
  [HEvent.malloc 1 100 [], HEvent.malloc 2 200 [], HEvent.free 1 []]

theorem C1_current_equals_live_sum_witness :
    (allocAddrs evsA).Nodup ∧ sumAllocSizes evsA < 2 ^ 64 ∧
    (processEvents cfgA envA evsA stateE).allocinfo_current_alloc_bytes = keptBytes evsA :=
  ⟨by decide, by decide, C1_current_equals_live_sum cfgA envA evsA (by decide) (by decide)⟩

/-- The objfile cache is consistent with the platform: every cached name is
exactly what dladdr reports for that address. -/
def cacheConsistent (env : Env) (c : List (Addr × String)) : Prop :=
  ∀ a s, mlookup a c = some s → env.dladdr_fname a = some s

theorem cacheConsistent_mset (env : Env) (c : List (Addr × String)) (a : Addr) (s : String)
    (hcc : cacheConsistent env c) (hf : env.dladdr_fname a = some s) :
    cacheConsistent env (mset a s c) := by
  intro x y hxy
  by_cases hx : x = a
  · subst hx
    rw [mlookup_mset_self] at hxy
    cases hxy
    exact hf
  · rw [mlookup_mset_ne a x s c hx] at hxy
    exact hcc x y hxy

theorem mlookup_mset_none {α β : Type} [DecidableEq α] (k x : α) (v : β) (m : List (α × β))
    (h : mlookup x (mset k v m) = none) : mlookup x m = none ∧ x ≠ k := by
  by_cases hx : x = k
  · subst hx
    rw [mlookup_mset_self] at h
    cases h
  · rw [mlookup_mset_ne k x v m hx] at h
    exact ⟨h, hx⟩

/-- Under a platform-consistent cache the walk's verdict string is the first
non-empty platform resolution along the walked addresses. -/
theorem findObjfile_fst (env : Env) :
    ∀ (l : List Addr) (c : List (Addr × String)), cacheConsistent env c →
      (findObjfile env l c).1 = firstNonEmpty (l.map (resolveStr env)) := by
  intro l
  induction l with
  | nil => intro c _; rfl
  | cons a rest ih =>
    intro c hcc
    cases hl : mlookup a c with
    | some s =>
      have hres : resolveStr env a = s := by
        have h2 := hcc a s hl
        simp [resolveStr, h2]
      by_cases hs : s = ""
      · subst hs
        simp [findObjfile, hl, firstNonEmpty, hres, ih c hcc]
      · simp [findObjfile, hl, hs, firstNonEmpty, hres]
    | none =>
      cases hf : env.dladdr_fname a with
      | some s =>
        have hres : resolveStr env a = s := by simp [resolveStr, hf]
        have hcc2 := cacheConsistent_mset env c a s hcc hf
        by_cases hs : s = ""
        · subst hs
          simp [findObjfile, hl, hf, firstNonEmpty, hres, ih (mset a "" c) hcc2]
        · simp [findObjfile, hl, hf, hs, firstNonEmpty, hres]
      | none =>
        have hres : resolveStr env a = "" := by simp [resolveStr, hf]
        simp [findObjfile, hl, hf, firstNonEmpty, hres, ih c hcc]

/-- Every address the walk hands to dladdr was absent from the cache the walk
started from. -/
theorem findObjfile_queried (env : Env) :
    ∀ (l : List Addr) (c : List (Addr × String)),
      ∀ x ∈ (findObjfile env l c).2.2, mlookup x c = none := by
  intro l
  induction l with
  | nil => intro c x hx; simp [findObjfile] at hx
  | cons a rest ih =>
    intro c x hx
    cases hl : mlookup a c with
    | some s =>
      by_cases hs : s = ""
      · subst hs
        simp [findObjfile, hl] at hx
        exact ih c x hx
      · simp [findObjfile, hl, hs] at hx
    | none =>
      cases hf : env.dladdr_fname a with
      | some s =>
        by_cases hs : s = ""
        · subst hs
          simp [findObjfile, hl, hf] at hx
          cases hx with
          | inl h => subst h; exact hl
          | inr h =>
            have h2 := ih (mset a "" c) x h
            exact (mlookup_mset_none a x "" c h2).1
        · simp [findObjfile, hl, hf, hs] at hx
          subst hx
          exact hl
      | none =>
        simp [findObjfile, hl, hf] at hx
        cases hx with
        | inl h => subst h; exact hl
        | inr h => exact ih c x h

/-- The walk never removes or changes existing cache entries. -/
theorem findObjfile_mono (env : Env) :
    ∀ (l : List Addr) (c : List (Addr × String)) (x : Addr) (s : String),
      mlookup x c = some s → mlookup x (findObjfile env l c).2.1 = some s := by
  intro l
  induction l with
  | nil => intro c x s h; simpa [findObjfile] using h
  | cons a rest ih =>
    intro c x s h
    cases hl : mlookup a c with
    | some s2 =>
      by_cases hs : s2 = ""
      · subst hs
        simp [findObjfile, hl]
        exact ih c x s h
      · simp [findObjfile, hl, hs]
        exact h
    | none =>
      have hxa : x ≠ a := by
        intro hx
        rw [hx, hl] at h
        cases h
      cases hf : env.dladdr_fname a with
      | some s2 =>
        have h2 : mlookup x (mset a s2 c) = some s := by
          rw [mlookup_mset_ne a x s2 c hxa]
          exact h
        by_cases hs : s2 = ""
        · subst hs
          simp [findObjfile, hl, hf]
          exact ih (mset a "" c) x s h2
        · simp [findObjfile, hl, hf, hs]
          exact h2
      | none =>
        simp [findObjfile, hl, hf]
        exact ih c x s h

/-- Every queried address that the platform resolves ends up cached with the
resolved name. -/
theorem findObjfile_populate (env : Env) :
    ∀ (l : List Addr) (c : List (Addr × String)),
      ∀ x ∈ (findObjfile env l c).2.2, ∀ s, env.dladdr_fname x = some s →
        mlookup x (findObjfile env l c).2.1 = some s := by
  intro l
  induction l with
  | nil => intro c x hx; simp [findObjfile] at hx
  | cons a rest ih =>
    intro c x hx s hfs
    cases hl : mlookup a c with
    | some s2 =>
      by_cases hs : s2 = ""
      · subst hs
        simp [findObjfile, hl] at hx ⊢
        exact ih c x hx s hfs
      · simp [findObjfile, hl, hs] at hx
    | none =>
      cases hf : env.dladdr_fname a with
      | some s2 =>
        by_cases hs : s2 = ""
        · subst hs
          simp [findObjfile, hl, hf] at hx ⊢
          cases hx with
          | inl hxa =>
            subst hxa
            have hse : s = "" := by
              rw [hfs] at hf
              cases hf
              rfl
            subst hse
            exact findObjfile_mono env rest (mset x "" c) x "" (mlookup_mset_self x "" c)
          | inr hxr => exact ih (mset a "" c) x hxr s hfs
        · simp [findObjfile, hl, hf, hs] at hx ⊢
          subst hx
          have hse : s = s2 := by
            rw [hfs] at hf
            injection hf
          subst hse
          exact mlookup_mset_self x s c
      | none =>
        simp [findObjfile, hl, hf] at hx ⊢
        cases hx with
        | inl hxa =>
          subst hxa
          rw [hfs] at hf
          cases hf
        | inr hxr => exact ih c x hxr s hfs

/-- Claim C6, counterexample: on the single-frame stack [7], whose only frame
(index 0) resolves to the excluded library, the code judges a deallocation
valid (its walk stops before index 0), while the validator as the claim words
it judges it invalid. -/
theorem C6_counterexample :
    (log_is_valid_callstack envB [7] false []).1 = true ∧
    log_is_valid_callstack_claim envB [7] false = false := by
  decide

/-- Claim C6 (amended): the validator walks the captured stack from its
outermost frame inward, stopping before the innermost frame (index 0); with
an objfile cache consistent with the platform it returns false exactly when
the first walked frame whose object file resolves to a non-empty name yields
libobjc.A.dylib and the event is a deallocation, and true in every other
case; it never hands dladdr an address already cached, and every queried
address the platform resolves is stored in the cache. -/
theorem C6_validator_policy (env : Env) (stack : List Addr) (is_alloc : Bool)
    (c : List (Addr × String)) (hcc : cacheConsistent env c) :
    ((log_is_valid_callstack env stack is_alloc c).1 = false ↔
      (is_alloc = false ∧
       firstNonEmpty (((stack.drop 1).reverse).map (resolveStr env)) = "libobjc.A.dylib")) ∧
    (∀ x ∈ (log_is_valid_callstack env stack is_alloc c).2.2, mlookup x c = none) ∧
    (∀ x ∈ (log_is_valid_callstack env stack is_alloc c).2.2, ∀ s,
       env.dladdr_fname x = some s →
       mlookup x (log_is_valid_callstack env stack is_alloc c).2.1 = some s) := by
  have hfst := findObjfile_fst env ((stack.drop 1).reverse) c hcc
  refine ⟨?_, ?_, ?_⟩
  · show (if (findObjfile env ((stack.drop 1).reverse) c).1 ≠ "" ∧ is_alloc = false ∧
          (findObjfile env ((stack.drop 1).reverse) c).1 = "libobjc.A.dylib"
        then false else true) = false ↔ _
    by_cases hcond : (findObjfile env ((stack.drop 1).reverse) c).1 ≠ "" ∧ is_alloc = false ∧
        (findObjfile env ((stack.drop 1).reverse) c).1 = "libobjc.A.dylib"
    · rw [if_pos hcond]
      constructor
      · intro _
        exact ⟨hcond.2.1, by rw [← hfst]; exact hcond.2.2⟩
      · intro _
        rfl
    · rw [if_neg hcond]
      constructor
      · intro h
        cases h
      · intro hrhs
        exfalso
        apply hcond
        have h1 : (findObjfile env ((stack.drop 1).reverse) c).1 = "libobjc.A.dylib" := by
          rw [hfst]
          exact hrhs.2
        refine ⟨?_, hrhs.1, h1⟩
        rw [h1]
        decide
  · intro x hx
    exact findObjfile_queried env ((stack.drop 1).reverse) c x hx
  · intro x hx s hs
    exact findObjfile_populate env ((stack.drop 1).reverse) c x hx s hs

theorem C6_validator_policy_witness :
    cacheConsistent envB [] ∧
    (((log_is_valid_callstack envB [1, 7] false []).1 = false ↔
       (false = false ∧
        firstNonEmpty ((([1, 7].drop 1).reverse).map (resolveStr envB)) = "libobjc.A.dylib")) ∧
     (∀ x ∈ (log_is_valid_callstack envB [1, 7] false []).2.2, mlookup x ([] : List (Addr × String)) = none) ∧
     (∀ x ∈ (log_is_valid_callstack envB [1, 7] false []).2.2, ∀ s,
        envB.dladdr_fname x = some s →
        mlookup x (log_is_valid_callstack envB [1, 7] false []).2.1 = some s)) := by
  have hcc : cacheConsistent envB [] := by
    intro a s h
    simp [mlookup] at h
  exact ⟨hcc, C6_validator_policy envB [1, 7] false [] hcc⟩

theorem trace_loop_addrs (env : Env) (d : Nat) :
    ∀ (l : List (Nat × Addr)) (sc : List (Addr × String)),
      ((trace_loop env d l sc).1.map Prod.fst)
        = (l.filter (fun f => decide ((d : Int) - 5 ≤ (f.1 : Int)))).map Prod.snd := by
  intro l
  induction l with
  | nil => intro sc; rfl
  | cons f rest ih =>
    intro sc
    have hstep : (trace_loop env d (f :: rest) sc).1
        = if (d : Int) - 5 ≤ (f.1 : Int) then
            (f.2, (addr_to_symbol env f.2 sc).1)
              :: (trace_loop env d rest (addr_to_symbol env f.2 sc).2.1).1
          else (trace_loop env d rest (addr_to_symbol env f.2 sc).2.1).1 := rfl
    by_cases hf : (d : Int) - 5 ≤ (f.1 : Int)
    · rw [hstep, if_pos hf]
      rw [List.filter_cons_of_pos (by simpa using hf)]
      simp only [List.map_cons, ih]
    · rw [hstep, if_neg hf]
      rw [List.filter_cons_of_neg (by simpa using hf)]
      exact ih _

/-- Claim C7, counterexample: on a captured stack of depth 1 the code emits
an empty trace (its loop starts at index 1), while the window as the claim
words it (every index i with i >= depth - 5) contains frame 0; the claim is
false at this input. -/
theorem C7_counterexample :
    ((log_print_callstack envA [5] []).1).map (fun l => l.map Prod.fst) = some [] ∧
    windowAddrs_claim [5] = [5] ∧
    ¬ ((log_print_callstack envA [5] []).1).map (fun l => l.map Prod.fst)
        = some (windowAddrs_claim [5]) := by
  decide

/-- Claim C7 (amended): for a positive captured depth d the emitted trace
holds exactly the frames with index i satisfying both 1 ≤ i ≤ d - 1 and
d - 5 ≤ i — the last captured frames except that frame 0 is never emitted —
in increasing index order. -/
theorem C7_trace_window (env : Env) (stack : List Addr) (sc : List (Addr × String))
    (h : stack ≠ []) :
    ((log_print_callstack env stack sc).1).map (fun l => l.map Prod.fst)
      = some (windowAddrs stack) := by
  have hlen : 0 < stack.length := List.length_pos.mpr h
  rw [log_print_callstack, if_pos hlen]
  show some (((trace_loop env stack.length (stack.enum.drop 1) sc).1).map Prod.fst)
      = some (windowAddrs stack)
  exact congrArg some (trace_loop_addrs env stack.length (stack.enum.drop 1) sc)

theorem C7_trace_window_witness :
    ([10, 11, 12] : List Addr) ≠ [] ∧
    ((log_print_callstack envA [10, 11, 12] []).1).map (fun l => l.map Prod.fst)
      = some (windowAddrs [10, 11, 12]) :=
  ⟨by decide, C7_trace_window envA [10, 11, 12] [] (by decide)⟩

/-- The live records carrying exactly the callstack c. -/
def stackRecs (c : List Addr) (rs : List hu_allocinfo_t) : List hu_allocinfo_t :=
  rs.filter (fun r => decide (r.callstack = c))

theorem mlookup_groupInsert_eq (r : hu_allocinfo_t) (m : List (List Addr × hu_allocinfo_t)) :
    mlookup r.callstack (groupInsert r m)
      = some (match mlookup r.callstack m with
              | some v => { v with count := v.count + 1, size := v.size + r.size }
              | none => r) := by
  cases h : mlookup r.callstack m <;> simp [groupInsert, h, mlookup_mset_self]

theorem mlookup_groupInsert_ne (r : hu_allocinfo_t) (m : List (List Addr × hu_allocinfo_t))
    (c : List Addr) (hc : c ≠ r.callstack) :
    mlookup c (groupInsert r m) = mlookup c m := by
  cases h : mlookup r.callstack m <;>
    simp [groupInsert, h, mlookup_mset_ne r.callstack c _ m hc]

theorem groupFold_lookup (c : List Addr) :
    ∀ (rs : List hu_allocinfo_t) (m : List (List Addr × hu_allocinfo_t)),
      (mlookup c (rs.foldl (fun m r => groupInsert r m) m)).map (fun v => (v.count, v.size))
        = (match mlookup c m with
           | some v => some (v.count + (stackRecs c rs).length,
                             v.size + ((stackRecs c rs).map (fun r => r.size)).sum)
           | none =>
             match stackRecs c rs with
             | [] => none
             | r :: rest => some (r.count + rest.length,
                                  r.size + (rest.map (fun r => r.size)).sum)) := by
  intro rs
  induction rs with
  | nil =>
    intro m
    cases hm : mlookup c m <;> simp [stackRecs, hm]
  | cons r rs ih =>
    intro m
    have hstep : (r :: rs).foldl (fun m r => groupInsert r m) m
        = rs.foldl (fun m r => groupInsert r m) (groupInsert r m) := rfl
    rw [hstep]
    by_cases hrc : r.callstack = c
    · have hsr : stackRecs c (r :: rs) = r :: stackRecs c rs := by
        simp [stackRecs, List.filter_cons, hrc]
      cases hm : mlookup c m with
      | some v =>
        have hg : mlookup c (groupInsert r m)
            = some { v with count := v.count + 1, size := v.size + r.size } := by
          rw [← hrc] at hm ⊢
          rw [mlookup_groupInsert_eq, hm]
        rw [ih (groupInsert r m), hg, hsr]
        simp only [Option.some.injEq, Prod.mk.injEq, List.length_cons, List.map_cons,
          List.sum_cons]
        constructor <;> omega
      | none =>
        have hg : mlookup c (groupInsert r m) = some r := by
          rw [← hrc] at hm ⊢
          rw [mlookup_groupInsert_eq, hm]
        rw [ih (groupInsert r m), hg, hsr]
    · have hsr : stackRecs c (r :: rs) = stackRecs c rs := by
        simp [stackRecs, List.filter_cons, hrc]
      have hg : mlookup c (groupInsert r m) = mlookup c m :=
        mlookup_groupInsert_ne r m c (fun h => hrc h.symm)
      rw [ih (groupInsert r m), hg, hsr]

/-- Claim C4: the summary groups live records by exact equality of the full
captured callstack sequence: for every stack c, the grouped map has an entry
for c exactly when some live record carries stack c; that entry's block
count is the number of such records and its byte total is the sum of their
sizes (so two same-stack records of count 1 yield one entry with blocks 2
and bytes the sum); records with differing stacks contribute to different
entries only. -/
theorem C4_group_by_exact_stack (tbl : List (Addr × hu_allocinfo_t)) (c : List Addr)
    (hcnt : ∀ e ∈ tbl, e.2.count = 1) :
    (mlookup c (groupByCallstack tbl)).map (fun v => (v.count, v.size))
      = (match stackRecs c (tbl.map (fun e => e.2)) with
         | [] => none
         | rs => some (rs.length, (rs.map (fun r => r.size)).sum)) := by
  have hfold : groupByCallstack tbl
      = (tbl.map (fun e => e.2)).foldl (fun m r => groupInsert r m) [] := by
    rw [groupByCallstack, List.foldl_map]
  rw [hfold, groupFold_lookup c (tbl.map (fun e => e.2)) []]
  have hnone : mlookup c ([] : List (List Addr × hu_allocinfo_t)) = none := rfl
  rw [hnone]
  cases hr : stackRecs c (tbl.map (fun e => e.2)) with
  | nil => rfl
  | cons r rest =>
    have hrmem : r ∈ tbl.map (fun e => e.2) := by
      have h1 : r ∈ stackRecs c (tbl.map (fun e => e.2)) := by
        rw [hr]; exact List.mem_cons_self r rest
      exact List.mem_of_mem_filter h1
    have hc1 : r.count = 1 := by
      obtain ⟨e, he, hre⟩ := List.mem_map.mp hrmem
      rw [← hre]
      exact hcnt e he
    simp only [Option.some.injEq, Prod.mk.injEq, List.length_cons, List.map_cons,
      List.sum_cons, hc1]
    exact ⟨by omega, trivial⟩

/-- A concrete table: two records with the identical stack [1, 2] and one
with the different stack [3]. -/
def tblC4 : List (Addr × hu_allocinfo_t) :=
  [(1, { ptr := 1, size := 100, callstack := [1, 2], count := 1 }),
   (2, { ptr := 2, size := 200, callstack := [1, 2], count := 1 }),
   (3, { ptr := 3, size := 50, callstack := [3], count := 1 })]

theorem C4_group_by_exact_stack_witness :
    (∀ e ∈ tblC4, e.2.count = 1) ∧
    (mlookup [1, 2] (groupByCallstack tblC4)).map (fun v => (v.count, v.size))
      = (match stackRecs [1, 2] (tblC4.map (fun e => e.2)) with
         | [] => none
         | rs => some (rs.length, (rs.map (fun r => r.size)).sum)) :=
  ⟨by decide, C4_group_by_exact_stack tblC4 [1, 2] (by decide)⟩

/-- The report-time re-validation checks the allocation side, and the only
rejection in log_is_valid_callstack requires a deallocation, so it always
passes. -/
theorem log_is_valid_callstack_alloc (env : Env) (stack : List Addr)
    (c : List (Addr × String)) : (log_is_valid_callstack env stack true c).1 = true := by
  have hneg : ¬ ((findObjfile env ((stack.drop 1).reverse) c).1 ≠ "" ∧ (true : Bool) = false ∧
      (findObjfile env ((stack.drop 1).reverse) c).1 = "libobjc.A.dylib") := by
    intro h
    cases h.2.1
  show (if (findObjfile env ((stack.drop 1).reverse) c).1 ≠ "" ∧ (true : Bool) = false ∧
      (findObjfile env ((stack.drop 1).reverse) c).1 = "libobjc.A.dylib"
    then false else true) = true
  rw [if_neg hneg]

/-- On a size-descending input the emission loop's stop-at-first-small-entry
behaviour coincides with threshold filtering: the emitted (bytes, blocks)
pairs are exactly those of the records meeting the threshold, in order. -/
theorem emit_leaks_projection (cfg : Config) (env : Env) :
    ∀ (l : List hu_allocinfo_t) (oc sc : List (Addr × String)),
      l.Pairwise (fun a b => b.size ≤ a.size) →
      (emit_leaks cfg env l oc sc).1.map (fun le => (le.bytes, le.blocks))
        = (l.filter (fun r => decide (cfg.hu_log_minleak ≤ (r.size : Int)))).map
            (fun r => (r.size, r.count)) := by
  intro l
  induction l with
  | nil => intro oc sc _; rfl
  | cons r rest ih =>
    intro oc sc hp
    rw [List.pairwise_cons] at hp
    by_cases hsz : cfg.hu_log_minleak ≤ (r.size : Int)
    · have hv := log_is_valid_callstack_alloc env r.callstack oc
      have hstep : (emit_leaks cfg env (r :: rest) oc sc).1
          = { bytes := r.size, blocks := r.count,
              trace := (log_print_callstack env r.callstack sc).1 }
            :: (emit_leaks cfg env rest
                  (log_is_valid_callstack env r.callstack true oc).2.1
                  (log_print_callstack env r.callstack sc).2).1 := by
        simp [emit_leaks, hsz, hv]
      rw [hstep, List.filter_cons_of_pos (by simpa using hsz), List.map_cons, List.map_cons,
        ih _ _ hp.2]
    · have hstop : (emit_leaks cfg env (r :: rest) oc sc).1 = [] := by
        simp [emit_leaks, hsz]
      have hfil : (r :: rest).filter (fun x => decide (cfg.hu_log_minleak ≤ (x.size : Int)))
          = [] := by
        rw [List.filter_eq_nil_iff]
        intro a ha
        rcases List.mem_cons.mp ha with hae | hat
        · subst hae
          simpa using hsz
        · have hle : a.size ≤ r.size := hp.1 a hat
          have : ¬ cfg.hu_log_minleak ≤ (a.size : Int) := by
            intro hc
            apply hsz
            calc cfg.hu_log_minleak ≤ (a.size : Int) := hc
              _ ≤ (r.size : Int) := by exact_mod_cast hle
          simpa using this
      rw [hstop, hfil]
      rfl

theorem foldl_add64_bytes (l : List (Addr × hu_allocinfo_t)) :
    ∀ acc, acc < 2 ^ 64 →
      l.foldl (fun a e => add64 a e.2.size) acc = (acc + tableSum l) % 2 ^ 64 := by
  induction l with
  | nil =>
    intro acc h
    simp [tableSum]
    omega
  | cons e t ih =>
    intro acc h
    have h1 : add64 acc e.2.size < 2 ^ 64 := Nat.mod_lt _ (by norm_num)
    rw [List.foldl_cons, ih (add64 acc e.2.size) h1, tableSum_cons]
    show ((acc + e.2.size) % 2 ^ 64 + tableSum t) % 2 ^ 64
        = (acc + (e.2.size + tableSum t)) % 2 ^ 64
    rw [Nat.mod_add_mod, Nat.add_assoc]

theorem leak_total_bytes_eq (tbl : List (Addr × hu_allocinfo_t)) :
    leak_total_bytes tbl = tableSum tbl % 2 ^ 64 := by
  have h := foldl_add64_bytes tbl 0 (by norm_num)
  simpa [leak_total_bytes] using h

theorem foldl_add64_blocks (l : List (Addr × hu_allocinfo_t)) :
    ∀ acc, acc < 2 ^ 64 →
      l.foldl (fun a _ => add64 a 1) acc = (acc + l.length) % 2 ^ 64 := by
  induction l with
  | nil =>
    intro acc h
    simp
    omega
  | cons e t ih =>
    intro acc h
    have h1 : add64 acc 1 < 2 ^ 64 := Nat.mod_lt _ (by norm_num)
    rw [List.foldl_cons, ih (add64 acc 1) h1, List.length_cons]
    show ((acc + 1) % 2 ^ 64 + t.length) % 2 ^ 64 = (acc + (t.length + 1)) % 2 ^ 64
    rw [Nat.mod_add_mod]
    congr 1
    omega

theorem leak_total_blocks_eq (tbl : List (Addr × hu_allocinfo_t)) :
    leak_total_blocks tbl = tbl.length % 2 ^ 64 := by
  have h := foldl_add64_blocks tbl 0 (by norm_num)
  simpa [leak_total_blocks] using h

/-- Claim C5: in the emitted report every itemized leak entry meets the
minimum-leak-bytes threshold (so entries strictly below it are absent);
every aggregated entry whose total meets the threshold — including one
exactly at it — appears (the validator re-check always passes on the
allocation side); and the unfiltered lost totals are the sum of the sizes
and the count of all live allocations, independent of the threshold. -/
theorem C5_threshold_and_lost_totals (cfg : Config) (env : Env) (s : LogState) (rep : Report)
    (hopen : fopen_append cfg env = true)
    (hrep : (log_summary cfg env s).2 = some rep)
    (hbytes : tableSum s.allocations < 2 ^ 64)
    (hlen : s.allocations.length < 2 ^ 64) :
    rep.lost_bytes = tableSum s.allocations ∧
    rep.lost_blocks = s.allocations.length ∧
    (∀ le ∈ rep.leaks, cfg.hu_log_minleak ≤ (le.bytes : Int)) ∧
    (∀ r ∈ (groupByCallstack s.allocations).map (fun e => e.2),
       cfg.hu_log_minleak ≤ (r.size : Int) →
       (r.size, r.count) ∈ rep.leaks.map (fun le => (le.bytes, le.blocks))) := by
  have hR : rep =
      { pid := env.pid,
        runtime_allocs := s.allocinfo_total_allocs,
        runtime_frees := s.allocinfo_total_frees,
        runtime_bytes := s.allocinfo_total_alloc_bytes,
        lost_bytes := leak_total_bytes s.allocations,
        lost_blocks := leak_total_blocks s.allocations,
        leaks := (emit_leaks cfg env
          (allocations_by_size (groupByCallstack s.allocations)).reverse
          s.objfile_cache s.symbol_cache).1 } := by
    have h0 : (log_summary cfg env s).2
        = some { pid := env.pid,
                 runtime_allocs := s.allocinfo_total_allocs,
                 runtime_frees := s.allocinfo_total_frees,
                 runtime_bytes := s.allocinfo_total_alloc_bytes,
                 lost_bytes := leak_total_bytes s.allocations,
                 lost_blocks := leak_total_blocks s.allocations,
                 leaks := (emit_leaks cfg env
                   (allocations_by_size (groupByCallstack s.allocations)).reverse
                   s.objfile_cache s.symbol_cache).1 } := by
      simp [log_summary, hopen]
    rw [h0] at hrep
    exact (Option.some.inj hrep).symm
  have hsorted : (allocations_by_size (groupByCallstack s.allocations)).Pairwise
      (fun a b : hu_allocinfo_t => a.size ≤ b.size) := by
    rw [allocations_by_size]
    exact List.sorted_insertionSort (fun a b : hu_allocinfo_t => a.size ≤ b.size)
      ((groupByCallstack s.allocations).map (fun e => e.2))
  have hpair : ((allocations_by_size (groupByCallstack s.allocations)).reverse).Pairwise
      (fun a b : hu_allocinfo_t => b.size ≤ a.size) := by
    rw [List.pairwise_reverse]
    exact hsorted
  have hproj := emit_leaks_projection cfg env
    (allocations_by_size (groupByCallstack s.allocations)).reverse
    s.objfile_cache s.symbol_cache hpair
  refine ⟨?_, ?_, ?_, ?_⟩
  · rw [hR]
    show leak_total_bytes s.allocations = tableSum s.allocations
    rw [leak_total_bytes_eq]
    exact Nat.mod_eq_of_lt hbytes
  · rw [hR]
    show leak_total_blocks s.allocations = s.allocations.length
    rw [leak_total_blocks_eq]
    exact Nat.mod_eq_of_lt hlen
  · intro le hle
    rw [hR] at hle
    have h1 : (le.bytes, le.blocks) ∈ (emit_leaks cfg env
        (allocations_by_size (groupByCallstack s.allocations)).reverse
        s.objfile_cache s.symbol_cache).1.map (fun le => (le.bytes, le.blocks)) :=
      List.mem_map_of_mem _ hle
    rw [hproj] at h1
    obtain ⟨r, hrmem, hreq⟩ := List.mem_map.mp h1
    have h2 : cfg.hu_log_minleak ≤ (r.size : Int) := by
      have h3 := List.of_mem_filter hrmem
      simpa using h3
    have h4 : le.bytes = r.size := by
      have := (Prod.mk.injEq _ _ _ _).mp hreq
      exact this.1.symm
    rw [h4]
    exact h2
  · intro r hrg hrs
    have hmem1 : r ∈ allocations_by_size (groupByCallstack s.allocations) :=
      ((List.perm_insertionSort (fun a b : hu_allocinfo_t => a.size ≤ b.size)
        ((groupByCallstack s.allocations).map (fun e => e.2))).mem_iff).mpr hrg
    have hmem2 : r ∈ (allocations_by_size (groupByCallstack s.allocations)).reverse :=
      List.mem_reverse.mpr hmem1
    have hmem3 : r ∈ ((allocations_by_size (groupByCallstack s.allocations)).reverse).filter
        (fun x => decide (cfg.hu_log_minleak ≤ (x.size : Int))) :=
      List.mem_filter.mpr ⟨hmem2, by simpa using hrs⟩
    have hmem4 : (r.size, r.count) ∈ (((allocations_by_size
        (groupByCallstack s.allocations)).reverse).filter
        (fun x => decide (cfg.hu_log_minleak ≤ (x.size : Int)))).map
        (fun x => (x.size, x.count)) :=
      List.mem_map_of_mem _ hmem3
    rw [← hproj] at hmem4
    rw [hR]
    exact hmem4

/-- A state with three live allocations: 100 bytes above, 50 bytes exactly
at, and 10 bytes below the 50-byte threshold of cfgB, on three distinct
callstacks. -/
def stateW : LogState :=
  { initState with allocations :=
      [(1, { ptr := 1, size := 100, callstack := [10, 11], count := 1 }),
       (2, { ptr := 2, size := 50, callstack := [20, 21], count := 1 }),
       (3, { ptr := 3, size := 10, callstack := [30, 31], count := 1 })] }

/-- The report log_summary produces for stateW under cfgB and envA: only the
two entries meeting the threshold are itemized, the lost totals cover all
three allocations. -/
def repW : Report :=
  { pid := 42, runtime_allocs := 0, runtime_frees := 0, runtime_bytes := 0,
    lost_bytes := 160, lost_blocks := 3,
    leaks := [{ bytes := 100, blocks := 1, trace := some [(11, "")] },
              { bytes := 50, blocks := 1, trace := some [(21, "")] }] }

theorem C5_threshold_and_lost_totals_witness :
    (log_summary cfgB envA stateW).2 = some repW ∧
    (repW.lost_bytes = tableSum stateW.allocations ∧
     repW.lost_blocks = stateW.allocations.length ∧
     (∀ le ∈ repW.leaks, cfgB.hu_log_minleak ≤ (le.bytes : Int)) ∧
     (∀ r ∈ (groupByCallstack stateW.allocations).map (fun e => e.2),
        cfgB.hu_log_minleak ≤ (r.size : Int) →
        (r.size, r.count) ∈ repW.leaks.map (fun le => (le.bytes, le.blocks)))) :=
  ⟨by decide,
   C5_threshold_and_lost_totals cfgB envA stateW repW (by decide) (by decide) (by decide)
     (by decide)⟩
